import Mathlib

/-!
Verification development for the logd serialized log chunk
(`src/logging/logd/SerializedLogChunk.h`).

The chunk state is embedded shallowly: byte buffers become `List Nat`,
machine integers become `Nat`.  Member functions whose bodies appear inline
in the header (`PruneSize`, `FinishWriting`, `log_entry`, the constructor)
are translated directly from that source.  Member functions that are only
declared in the header (`Compress`, `IncReaderRefCount`, `DecReaderRefCount`,
`ClearUidLogs`, `CanLog`, `Log`) are modelled from the specification, as
noted in their doc comments.
-/

/-- Modelled from the spec: the compression manager's compressor.  The spec
requires only "any stream compressor with a stable round-trip guarantee";
we model it as a run-length encoder over the byte list.  Helper carrying the
current run value `x` and its count `n`. -/
def rleAux (x : Nat) (n : Nat) : List Nat → List Nat
  | [] => [n, x]
  | y :: ys => if y = x then rleAux x (n + 1) ys else n :: x :: rleAux y 1 ys

/-- Modelled from the spec: compress a byte list to a run-length encoding. -/
def rleCompress : List Nat → List Nat
  | [] => []
  | x :: xs => rleAux x 1 xs

/-- Modelled from the spec: the decompression step, inverse of `rleCompress`. -/
def rleDecompress : List Nat → List Nat
  | [] => []
  | [_] => []
  | n :: x :: rest => List.replicate n x ++ rleDecompress rest

/-- One serialized log entry, per the spec's data model: a header
(sequence number, wall-clock timestamp, owning identity, pid, tid,
payload length) followed by the payload bytes. -/
structure SerializedLogEntry where
  sequence : Nat
  realtime : Nat
  uid : Nat
  pid : Nat
  tid : Nat
  msg : List Nat
deriving DecidableEq, Repr

/-- Modelled from the spec: the header is a fixed number of cells
(`sizeof(header)` in `CanLog`); in this embedding each header field is one
cell, so the header occupies 6 cells. -/
def headerSize : Nat := 6

/-- Modelled from the spec: encode an entry as header cells followed by the
payload, laid out contiguously. -/
def encode (e : SerializedLogEntry) : List Nat :=
  [e.sequence, e.realtime, e.uid, e.pid, e.tid, e.msg.length] ++ e.msg

/-- Concatenation of the encodings of a list of entries: the byte region
holding them back-to-back. -/
def encodeAll : List SerializedLogEntry → List Nat
  | [] => []
  | e :: es => encode e ++ encodeAll es

/-- The chunk state, with the fields of `SerializedLogChunk` (header lines
80-88).  `SerializedData` buffers are byte lists; `readers_` holds opaque
reader handles. -/
structure SerializedLogChunk where
  contents_ : List Nat
  write_offset_ : Nat
  reader_ref_count_ : Nat
  writer_active_ : Bool
  highest_sequence_number_ : Nat
  compressed_log_ : List Nat
  readers_ : List Nat
deriving DecidableEq, Repr

/-- The constructor `SerializedLogChunk(size_t size) : contents_(size) {}`:
a decompressed buffer of `size` bytes, every other field at its member
initializer (`write_offset_ = 0`, `reader_ref_count_ = 0`,
`writer_active_ = true`, `highest_sequence_number_ = 1`, empty compressed
buffer, no readers). -/
def mkChunk (size : Nat) : SerializedLogChunk :=
  ⟨List.replicate size 0, 0, 0, true, 1, [], []⟩

/-- Modelled from the spec: the fixed per-object overhead `sizeof(*this)`
appearing in `PruneSize`. -/
def sizeofChunk : Nat := 80

namespace SerializedLogChunk

/-- Modelled from the spec: `Compress` (declared in the header, body not in
src/) computes the compressed snapshot from the current decompressed region
when no snapshot is present; repeated calls after finalize are no-ops
(the spec's §4.1 idempotence), and mutation invalidates the snapshot
explicitly before recompressing. -/
def Compress (c : SerializedLogChunk) : SerializedLogChunk :=
  if c.compressed_log_.length = 0 then
    { c with compressed_log_ := rleCompress c.contents_ }
  else c

/-- `FinishWriting`, translated from the header (lines 60-66): mark the
writer inactive, compress, and if the reader count is zero resize the
decompressed region to empty. -/
def FinishWriting (c : SerializedLogChunk) : SerializedLogChunk :=
  let c2 := Compress { c with writer_active_ := false }
  if c2.reader_ref_count_ = 0 then { c2 with contents_ := [] } else c2

/-- Modelled from the spec: `IncReaderRefCount` (Attach) increments the
reader count and, if the decompressed region is not resident while a
compressed snapshot exists, reconstitutes it by decompression. -/
def IncReaderRefCount (c : SerializedLogChunk) : SerializedLogChunk :=
  let c2 := { c with reader_ref_count_ := c.reader_ref_count_ + 1 }
  if c2.contents_.length = 0 ∧ c2.compressed_log_.length ≠ 0 then
    { c2 with contents_ := rleDecompress c2.compressed_log_ }
  else c2

/-- Modelled from the spec: `DecReaderRefCount` (Detach) decrements the
reader count and, if the count reaches zero while the writer is inactive,
releases the decompressed region. -/
def DecReaderRefCount (c : SerializedLogChunk) : SerializedLogChunk :=
  let c2 := { c with reader_ref_count_ := c.reader_ref_count_ - 1 }
  if c2.reader_ref_count_ = 0 ∧ c2.writer_active_ = false then
    { c2 with contents_ := [] }
  else c2

/-- Modelled from the spec: `AttachReader` registers a reader handle in the
back-reference set. -/
def AttachReader (c : SerializedLogChunk) (r : Nat) : SerializedLogChunk :=
  { c with readers_ := c.readers_ ++ [r] }

/-- Modelled from the spec: `DetachReader` removes a reader handle from the
back-reference set. -/
def DetachReader (c : SerializedLogChunk) (r : Nat) : SerializedLogChunk :=
  { c with readers_ := c.readers_.erase r }

/-- Modelled from the spec: `CanLog` returns whether the write cursor plus
header plus payload fits within the region's capacity. -/
def CanLog (c : SerializedLogChunk) (len : Nat) : Bool :=
  decide (c.write_offset_ + headerSize + len ≤ c.contents_.length)

/-- Overwrite `bs` into `buf` starting at offset `off`, in place. -/
def writeAt (buf : List Nat) (off : Nat) (bs : List Nat) : List Nat :=
  buf.take off ++ bs ++ buf.drop (off + bs.length)

/-- Modelled from the spec: `Log` (Append) encodes the header and payload at
the current write cursor, advances the cursor by the encoded size, and
records the sequence number as the highest written. -/
def Log (c : SerializedLogChunk) (sequence realtime uid pid tid : Nat)
    (msg : List Nat) : SerializedLogChunk :=
  let e : SerializedLogEntry := ⟨sequence, realtime, uid, pid, tid, msg⟩
  { c with contents_ := writeAt c.contents_ c.write_offset_ (encode e),
           write_offset_ := c.write_offset_ + (encode e).length,
           highest_sequence_number_ := sequence }

/-- `PruneSize`, translated from the header (lines 56-58):
`sizeof(*this) + (compressed_log_.size() ?: contents_.size())`. -/
def PruneSize (c : SerializedLogChunk) : Nat :=
  sizeofChunk +
    (if c.compressed_log_.length ≠ 0 then c.compressed_log_.length
     else c.contents_.length)

/-- `log_entry`, translated from the header (lines 68-71): the `CHECK`
failure (writer inactive and no reader) is modelled as `none`; otherwise the
returned pointer `data() + offset` is the byte suffix at `offset`. -/
def log_entry (c : SerializedLogChunk) (offset : Nat) : Option (List Nat) :=
  if c.writer_active_ = true ∨ 0 < c.reader_ref_count_ then
    some (c.contents_.drop offset)
  else none

/-- Modelled from the spec: the scanning loop of `ClearUidLogs`: walk the
region entry by entry (reading the payload length from the header), dropping
entries whose identity matches `uid` and compacting the rest.  `fuel` bounds
the recursion; `clearScan` supplies enough. -/
def clearScanGo : Nat → List Nat → Nat → List Nat
  | 0, _, _ => []
  | fuel + 1, sq :: rt :: u :: p :: t :: len :: rest, uid =>
      if u = uid then clearScanGo fuel (rest.drop len) uid
      else sq :: rt :: u :: p :: t :: len ::
        (rest.take len ++ clearScanGo fuel (rest.drop len) uid)
  | _ + 1, _, _ => []

/-- Modelled from the spec: scan a full region. -/
def clearScan (bytes : List Nat) (uid : Nat) : List Nat :=
  clearScanGo bytes.length bytes uid

/-- Modelled from the spec: `ClearUidLogs` (declared in the header, body not
in src/) scans the decompressed region in offset order, removes every entry
whose identity matches `uid`, compacts the remainder in place, reduces the
write cursor, invalidates the compressed snapshot when content changed, and
reports whether the region is now empty. -/
def ClearUidLogs (c : SerializedLogChunk) (uid : Nat) :
    SerializedLogChunk × Bool :=
  let kept := clearScan (c.contents_.take c.write_offset_) uid
  let nwo := kept.length
  ({ c with contents_ := kept ++ c.contents_.drop nwo,
            write_offset_ := nwo,
            compressed_log_ :=
              if nwo = c.write_offset_ then c.compressed_log_ else [] },
   nwo == 0)

end SerializedLogChunk

/-- The decompressed region is resident: non-empty and sized at least the
write cursor. -/
def Resident (c : SerializedLogChunk) : Prop :=
  0 < c.contents_.length ∧ c.write_offset_ ≤ c.contents_.length

instance (c : SerializedLogChunk) : Decidable (Resident c) := by
  unfold Resident; infer_instance

/-- One public operation of the chunk, with the spec's fatal preconditions
as guards: `Log` requires an active writer and `CanLog`, `DecReaderRefCount`
requires an attached reader. -/
inductive Step : SerializedLogChunk → SerializedLogChunk → Prop
  | log (c : SerializedLogChunk) (sequence realtime uid pid tid : Nat)
      (msg : List Nat) :
      c.writer_active_ = true → c.CanLog msg.length = true →
      Step c (c.Log sequence realtime uid pid tid msg)
  | finish (c : SerializedLogChunk) : Step c c.FinishWriting
  | inc (c : SerializedLogChunk) : Step c c.IncReaderRefCount
  | dec (c : SerializedLogChunk) :
      0 < c.reader_ref_count_ → Step c c.DecReaderRefCount

/-- Reachability from a freshly constructed chunk of the given capacity by
sequences of Log, FinishWriting, IncReaderRefCount, DecReaderRefCount. -/
def Reachable (cap : Nat) (c : SerializedLogChunk) : Prop :=
  Relation.ReflTransGen Step (mkChunk cap) c

/-- `Step` extended with the remaining public operations (prune, explicit
compression, reader registration), used for the one-way writer transition. -/
inductive StepAll : SerializedLogChunk → SerializedLogChunk → Prop
  | base (c c2 : SerializedLogChunk) : Step c c2 → StepAll c c2
  | clear (c : SerializedLogChunk) (uid : Nat) :
      c.reader_ref_count_ = 0 → StepAll c (c.ClearUidLogs uid).1
  | compress (c : SerializedLogChunk) : StepAll c c.Compress
  | attach (c : SerializedLogChunk) (r : Nat) : StepAll c (c.AttachReader r)
  | detach (c : SerializedLogChunk) (r : Nat) : StepAll c (c.DetachReader r)

/-- The inductive invariant of reachable chunk states: the write cursor is
bounded by the capacity; while the writer is active the snapshot is absent
and the region is the full capacity buffer; once the writer is inactive the
snapshot is the compression of a capacity-sized buffer `b`, and the region
is `b` exactly while readers are attached, empty otherwise. -/
def ChunkInv (cap : Nat) (c : SerializedLogChunk) : Prop :=
  c.write_offset_ ≤ cap ∧
  (c.writer_active_ = true →
    c.compressed_log_ = [] ∧ c.contents_.length = cap) ∧
  (c.writer_active_ = false →
    ∃ b : List Nat, b.length = cap ∧ c.compressed_log_ = rleCompress b ∧
      ((c.reader_ref_count_ = 0 ∧ c.contents_ = []) ∨
       (c.reader_ref_count_ ≠ 0 ∧ c.contents_ = b)))

lemma rleAux_ne_nil (x n : Nat) (ys : List Nat) : rleAux x n ys ≠ [] := by
  induction ys generalizing x n with
  | nil => simp [rleAux]
  | cons y ys ih =>
    unfold rleAux
    by_cases h : y = x
    · simpa [h] using ih x (n + 1)
    · simp [h]

lemma rleCompress_eq_nil_iff (l : List Nat) : rleCompress l = [] ↔ l = [] := by
  cases l with
  | nil => simp [rleCompress]
  | cons x xs => simp [rleCompress, rleAux_ne_nil]

lemma rleDecompress_rleAux (x n : Nat) (ys : List Nat) :
    rleDecompress (rleAux x n ys) = List.replicate n x ++ ys := by
  induction ys generalizing x n with
  | nil => simp [rleAux, rleDecompress]
  | cons y ys ih =>
    unfold rleAux
    by_cases h : y = x
    · subst h
      rw [if_pos rfl, ih]
      rw [List.replicate_succ' n y, List.append_assoc]
      simp
    · rw [if_neg h]
      show List.replicate n x ++ rleDecompress (rleAux y 1 ys) = _
      rw [ih]
      simp

lemma rleDecompress_rleCompress (l : List Nat) :
    rleDecompress (rleCompress l) = l := by
  cases l with
  | nil => simp [rleCompress, rleDecompress]
  | cons x xs =>
    show rleDecompress (rleAux x 1 xs) = x :: xs
    rw [rleDecompress_rleAux]
    simp

lemma writeAt_length (buf : List Nat) (off : Nat) (bs : List Nat)
    (h : off + bs.length ≤ buf.length) :
    (SerializedLogChunk.writeAt buf off bs).length = buf.length := by
  simp only [SerializedLogChunk.writeAt, List.length_append, List.length_take,
    List.length_drop]
  omega

lemma encode_length (e : SerializedLogEntry) :
    (encode e).length = headerSize + e.msg.length := by
  simp [encode, headerSize]
  omega

lemma FinishWriting_eq (c : SerializedLogChunk) :
    c.FinishWriting =
      { c with writer_active_ := false,
               compressed_log_ :=
                 if c.compressed_log_.length = 0 then rleCompress c.contents_
                 else c.compressed_log_,
               contents_ :=
                 if c.reader_ref_count_ = 0 then [] else c.contents_ } := by
  cases c with
  | mk co wo rc wa hs cl rd =>
    unfold SerializedLogChunk.FinishWriting SerializedLogChunk.Compress
    by_cases h1 : cl.length = 0 <;> by_cases h2 : rc = 0 <;> simp [h1, h2]

lemma IncReaderRefCount_eq (c : SerializedLogChunk) :
    c.IncReaderRefCount =
      { c with reader_ref_count_ := c.reader_ref_count_ + 1,
               contents_ :=
                 if c.contents_.length = 0 ∧ c.compressed_log_.length ≠ 0 then
                   rleDecompress c.compressed_log_
                 else c.contents_ } := by
  cases c with
  | mk co wo rc wa hs cl rd =>
    unfold SerializedLogChunk.IncReaderRefCount
    by_cases h1 : co = [] ∧ cl ≠ [] <;>
      simp [h1, List.length_eq_zero]

lemma DecReaderRefCount_eq (c : SerializedLogChunk) :
    c.DecReaderRefCount =
      { c with reader_ref_count_ := c.reader_ref_count_ - 1,
               contents_ :=
                 if c.reader_ref_count_ - 1 = 0 ∧ c.writer_active_ = false then
                   []
                 else c.contents_ } := by
  cases c with
  | mk co wo rc wa hs cl rd =>
    unfold SerializedLogChunk.DecReaderRefCount
    by_cases h1 : rc - 1 = 0 ∧ wa = false <;> simp [h1]

lemma Log_eq (c : SerializedLogChunk) (sequence realtime uid pid tid : Nat)
    (msg : List Nat) :
    c.Log sequence realtime uid pid tid msg =
      { c with contents_ :=
                 SerializedLogChunk.writeAt c.contents_ c.write_offset_
                   (encode ⟨sequence, realtime, uid, pid, tid, msg⟩),
               write_offset_ :=
                 c.write_offset_ +
                   (encode ⟨sequence, realtime, uid, pid, tid, msg⟩).length,
               highest_sequence_number_ := sequence } := by
  cases c with
  | mk co wo rc wa hs cl rd => unfold SerializedLogChunk.Log; simp

lemma chunkInv_init (cap : Nat) : ChunkInv cap (mkChunk cap) := by
  refine ⟨Nat.zero_le _, fun _ => ⟨rfl, by simp [mkChunk]⟩, fun hf => ?_⟩
  simp [mkChunk] at hf

lemma chunkInv_log (cap : Nat) (c : SerializedLogChunk)
    (sequence realtime uid pid tid : Nat) (msg : List Nat)
    (hw : c.writer_active_ = true) (hcl : c.CanLog msg.length = true)
    (h : ChunkInv cap c) :
    ChunkInv cap (c.Log sequence realtime uid pid tid msg) := by
  obtain ⟨hwo, hact, hinact⟩ := h
  obtain ⟨hcomp, hlen⟩ := hact hw
  have hfit : c.write_offset_ + headerSize + msg.length ≤ c.contents_.length := by
    simpa [SerializedLogChunk.CanLog] using hcl
  have henc : (encode ⟨sequence, realtime, uid, pid, tid, msg⟩).length =
      headerSize + msg.length := encode_length _
  rw [Log_eq]
  refine ⟨?_, fun _ => ⟨by simpa using hcomp, ?_⟩, fun hf => by simp [hw] at hf⟩
  · show c.write_offset_ +
        (encode ⟨sequence, realtime, uid, pid, tid, msg⟩).length ≤ cap
    rw [henc]; omega
  · show (SerializedLogChunk.writeAt c.contents_ c.write_offset_
        (encode ⟨sequence, realtime, uid, pid, tid, msg⟩)).length = cap
    rw [writeAt_length]
    · exact hlen
    · rw [henc]; omega

lemma chunkInv_finish (cap : Nat) (c : SerializedLogChunk)
    (h : ChunkInv cap c) : ChunkInv cap c.FinishWriting := by
  obtain ⟨hwo, hact, hinact⟩ := h
  rw [FinishWriting_eq]
  cases hwa : c.writer_active_ with
  | true =>
    obtain ⟨hcomp, hlen⟩ := hact hwa
    refine ⟨hwo, by simp, fun _ => ⟨c.contents_, hlen, by simp [hcomp], ?_⟩⟩
    by_cases hr : c.reader_ref_count_ = 0
    · exact Or.inl ⟨hr, by simp [hr]⟩
    · exact Or.inr ⟨hr, by simp [hr]⟩
  | false =>
    obtain ⟨b, hb, hcb, hcc⟩ := hinact hwa
    by_cases hbe : b = []
    · subst hbe
      have hcl2 : c.compressed_log_ = [] := by simpa [rleCompress] using hcb
      have hco : c.contents_ = [] := by
        rcases hcc with ⟨_, h2⟩ | ⟨_, h2⟩ <;> simp [h2]
      refine ⟨hwo, by simp, fun _ => ⟨[], by simpa using hb,
        by simp [hcl2, hco, rleCompress], ?_⟩⟩
      by_cases hr : c.reader_ref_count_ = 0
      · exact Or.inl ⟨hr, by simp [hr]⟩
      · exact Or.inr ⟨hr, by simp [hr, hco]⟩
    · have hne : ¬c.compressed_log_.length = 0 := by
        rw [hcb]
        simpa [List.length_eq_zero, rleCompress_eq_nil_iff] using hbe
      refine ⟨hwo, by simp, fun _ => ⟨b, hb, ?_, ?_⟩⟩
      · show (if c.compressed_log_.length = 0 then rleCompress c.contents_
            else c.compressed_log_) = rleCompress b
        rw [if_neg hne]; exact hcb
      by_cases hr : c.reader_ref_count_ = 0
      · exact Or.inl ⟨hr, by simp [hr]⟩
      · rcases hcc with ⟨h0, _⟩ | ⟨_, hcb2⟩
        · exact absurd h0 hr
        · exact Or.inr ⟨hr, by simp [hr, hcb2]⟩

lemma chunkInv_inc (cap : Nat) (c : SerializedLogChunk)
    (h : ChunkInv cap c) : ChunkInv cap c.IncReaderRefCount := by
  obtain ⟨hwo, hact, hinact⟩ := h
  rw [IncReaderRefCount_eq]
  cases hwa : c.writer_active_ with
  | true =>
    obtain ⟨hcomp, hlen⟩ := hact hwa
    exact ⟨hwo, fun _ => ⟨by simpa using hcomp, by simp [hcomp, hlen]⟩,
      fun hf => by simp [hwa] at hf⟩
  | false =>
    obtain ⟨b, hb, hcb, hcc⟩ := hinact hwa
    refine ⟨hwo, fun ht => by simp [hwa] at ht,
      fun _ => ⟨b, hb, by simpa using hcb, Or.inr ⟨Nat.succ_ne_zero _, ?_⟩⟩⟩
    show (if c.contents_.length = 0 ∧ c.compressed_log_.length ≠ 0 then
        rleDecompress c.compressed_log_ else c.contents_) = b
    rcases hcc with ⟨_, hce⟩ | ⟨_, hcb2⟩
    · by_cases hbe : b = []
      · subst hbe
        simp [hce, hcb, rleCompress]
      · have hne : c.compressed_log_.length ≠ 0 := by
          rw [hcb]
          simpa [List.length_eq_zero, rleCompress_eq_nil_iff] using hbe
        rw [if_pos ⟨by simp [hce], hne⟩, hcb, rleDecompress_rleCompress]
    · by_cases hbe : b = []
      · subst hbe
        simp [hcb2, hcb, rleCompress]
      · rw [if_neg, hcb2]
        rw [hcb2]
        simp [List.length_eq_zero, hbe]

lemma chunkInv_dec (cap : Nat) (c : SerializedLogChunk)
    (hg : 0 < c.reader_ref_count_) (h : ChunkInv cap c) :
    ChunkInv cap c.DecReaderRefCount := by
  obtain ⟨hwo, hact, hinact⟩ := h
  rw [DecReaderRefCount_eq]
  cases hwa : c.writer_active_ with
  | true =>
    obtain ⟨hcomp, hlen⟩ := hact hwa
    exact ⟨hwo, fun _ => ⟨by simpa using hcomp, by simp [hwa, hlen]⟩,
      fun hf => by simp [hwa] at hf⟩
  | false =>
    obtain ⟨b, hb, hcb, hcc⟩ := hinact hwa
    have hcbv : c.contents_ = b := by
      rcases hcc with ⟨h0, _⟩ | ⟨_, h2⟩
      · omega
      · exact h2
    refine ⟨hwo, fun ht => by simp [hwa] at ht,
      fun _ => ⟨b, hb, by simpa using hcb, ?_⟩⟩
    by_cases hr : c.reader_ref_count_ - 1 = 0
    · exact Or.inl ⟨hr, by simp [hr, hwa]⟩
    · exact Or.inr ⟨hr, by simp [hr, hwa, hcbv]⟩

lemma chunkInv_step (cap : Nat) (c c2 : SerializedLogChunk)
    (h : ChunkInv cap c) (st : Step c c2) : ChunkInv cap c2 := by
  cases st with
  | log sequence realtime uid pid tid msg hw hcl =>
    exact chunkInv_log cap c sequence realtime uid pid tid msg hw hcl h
  | finish => exact chunkInv_finish cap c h
  | inc => exact chunkInv_inc cap c h
  | dec hg => exact chunkInv_dec cap c hg h

lemma chunkInv_of_reachable (cap : Nat) (c : SerializedLogChunk)
    (h : Reachable cap c) : ChunkInv cap c := by
  induction h with
  | refl => exact chunkInv_init cap
  | tail _ st ih => exact chunkInv_step cap _ _ ih st

lemma length_le_length_encodeAll (es : List SerializedLogEntry) :
    es.length ≤ (encodeAll es).length := by
  induction es with
  | nil => simp [encodeAll]
  | cons e es ih =>
    have he : (encode e).length = headerSize + e.msg.length := encode_length e
    simp only [encodeAll, List.length_append, List.length_cons]
    have h6 : headerSize = 6 := rfl
    omega

lemma encodeAll_eq_nil_iff (es : List SerializedLogEntry) :
    encodeAll es = [] ↔ es = [] := by
  cases es with
  | nil => simp [encodeAll]
  | cons e es => simp [encodeAll, encode]

lemma clearScanGo_encodeAll (uid : Nat) (es : List SerializedLogEntry)
    (fuel : Nat) (h : es.length ≤ fuel) :
    SerializedLogChunk.clearScanGo fuel (encodeAll es) uid =
      encodeAll (es.filter fun e => e.uid != uid) := by
  induction es generalizing fuel with
  | nil =>
    cases fuel with
    | zero => simp [SerializedLogChunk.clearScanGo, encodeAll]
    | succ f => simp [SerializedLogChunk.clearScanGo, encodeAll]
  | cons e es ih =>
    cases fuel with
    | zero => simp at h
    | succ f =>
      have hm : encodeAll (e :: es) =
          e.sequence :: e.realtime :: e.uid :: e.pid :: e.tid ::
            e.msg.length :: (e.msg ++ encodeAll es) := by
        simp [encodeAll, encode]
      rw [hm]
      simp only [SerializedLogChunk.clearScanGo]
      rw [List.take_left, List.drop_left]
      by_cases hu : e.uid = uid
      · rw [if_pos hu, ih f (Nat.le_of_succ_le_succ h)]
        have hbe : (e.uid != uid) = false := by simp [hu]
        simp [List.filter_cons, hbe]
      · rw [if_neg hu, ih f (Nat.le_of_succ_le_succ h)]
        have hbe : (e.uid != uid) = true := by simp [hu]
        simp [List.filter_cons, hbe, encodeAll, encode]

lemma clearScan_encodeAll (uid : Nat) (es : List SerializedLogEntry) :
    SerializedLogChunk.clearScan (encodeAll es) uid =
      encodeAll (es.filter fun e => e.uid != uid) :=
  clearScanGo_encodeAll uid es (encodeAll es).length
    (length_le_length_encodeAll es)

lemma resident_of_chunkInv (cap : Nat) (c : SerializedLogChunk)
    (hcap : 0 < cap) (h : ChunkInv cap c)
    (hpre : c.writer_active_ = true ∨ 0 < c.reader_ref_count_) :
    Resident c := by
  obtain ⟨hwo, hact, hinact⟩ := h
  cases hwa : c.writer_active_ with
  | true =>
    obtain ⟨_, hlen⟩ := hact hwa
    exact ⟨by omega, by omega⟩
  | false =>
    obtain ⟨b, hb, _, hcc⟩ := hinact hwa
    rcases hcc with ⟨h0, _⟩ | ⟨_, hcb2⟩
    · rcases hpre with hp | hp
      · rw [hwa] at hp; exact absurd hp (by simp)
      · omega
    · rw [Resident, hcb2, hb]
      exact ⟨hcap, hwo⟩

lemma not_resident_of_chunkInv (cap : Nat) (c : SerializedLogChunk)
    (h : ChunkInv cap c) (hwa : c.writer_active_ = false)
    (hrc : c.reader_ref_count_ = 0) : ¬ Resident c := by
  obtain ⟨_, _, hinact⟩ := h
  obtain ⟨b, _, _, hcc⟩ := hinact hwa
  rcases hcc with ⟨_, hce⟩ | ⟨hne, _⟩
  · rw [Resident, hce]; simp
  · exact absurd hrc hne

lemma ClearUidLogs_eq (c : SerializedLogChunk) (uid : Nat) :
    c.ClearUidLogs uid =
      ({ c with
          contents_ :=
            SerializedLogChunk.clearScan (c.contents_.take c.write_offset_) uid
              ++ c.contents_.drop
                (SerializedLogChunk.clearScan
                  (c.contents_.take c.write_offset_) uid).length,
          write_offset_ :=
            (SerializedLogChunk.clearScan
              (c.contents_.take c.write_offset_) uid).length,
          compressed_log_ :=
            if (SerializedLogChunk.clearScan
                  (c.contents_.take c.write_offset_) uid).length =
                c.write_offset_ then
              c.compressed_log_
            else [] },
       ((SerializedLogChunk.clearScan
          (c.contents_.take c.write_offset_) uid).length == 0)) := rfl

/-- Claim C10: for every capacity, a freshly constructed chunk has write
offset 0, reader count 0, writer active, an empty compressed snapshot, an
empty reader back-reference set, and highest sequence number 1 (not 0). -/
theorem mkChunk_initial_state (size : Nat) :
    (mkChunk size).write_offset_ = 0 ∧
    (mkChunk size).reader_ref_count_ = 0 ∧
    (mkChunk size).writer_active_ = true ∧
    (mkChunk size).compressed_log_ = [] ∧
    (mkChunk size).readers_ = [] ∧
    (mkChunk size).highest_sequence_number_ = 1 ∧
    (mkChunk size).highest_sequence_number_ ≠ 0 :=
  ⟨rfl, rfl, rfl, rfl, rfl, rfl, Nat.one_ne_zero⟩

/-- Claim C8: for every chunk contents, running `Compress` (here from a
state with no snapshot yet, as when the writer finishes) and then the
decompression step reproduces the decompressed region byte-for-byte. -/
theorem compress_round_trip (c : SerializedLogChunk)
    (h : c.compressed_log_ = []) :
    rleDecompress c.Compress.compressed_log_ = c.contents_ := by
  unfold SerializedLogChunk.Compress
  rw [if_pos (by simp [h])]
  exact rleDecompress_rleCompress c.contents_

/-- Witness for C8 at a concrete chunk. -/
theorem compress_round_trip_witness :
    rleDecompress (mkChunk 2).Compress.compressed_log_ =
      (mkChunk 2).contents_ :=
  compress_round_trip (mkChunk 2) rfl

/-- Claim C5: `FinishWriting` is idempotent: a second call leaves the whole
chunk state exactly as after the first call. -/
theorem finishWriting_idempotent (c : SerializedLogChunk) :
    c.FinishWriting.FinishWriting = c.FinishWriting := by
  cases c with
  | mk co wo rc wa hs cl rd =>
    rw [FinishWriting_eq, FinishWriting_eq]
    by_cases h1 : cl.length = 0
    · by_cases h2 : rc = 0
      · by_cases h3 : co = []
        · subst h3; simp [h1, h2, rleCompress]
        · have h4 : ¬(rleCompress co).length = 0 := by
            simpa [List.length_eq_zero, rleCompress_eq_nil_iff] using h3
          simp [h1, h2, h4]
      · by_cases h3 : co = []
        · subst h3; simp [h1, h2, rleCompress]
        · have h4 : ¬(rleCompress co).length = 0 := by
            simpa [List.length_eq_zero, rleCompress_eq_nil_iff] using h3
          simp [h1, h2, h4]
    · by_cases h2 : rc = 0 <;> simp [h1, h2]

/-- Claim C2 as stated is false on the code: with readers attached across
`FinishWriting`, a compressed snapshot exists while the decompressed region
is still resident (not released), yet `PruneSize` already returns the
compressed size rather than the decompressed region's full size. -/
theorem pruneSize_claim_counterexample :
    Reachable 3 (mkChunk 3).IncReaderRefCount.FinishWriting ∧
    ((mkChunk 3).IncReaderRefCount.FinishWriting).compressed_log_.length ≠ 0 ∧
    ((mkChunk 3).IncReaderRefCount.FinishWriting).contents_.length ≠ 0 ∧
    ((mkChunk 3).IncReaderRefCount.FinishWriting).PruneSize ≠
      sizeofChunk +
        ((mkChunk 3).IncReaderRefCount.FinishWriting).contents_.length :=
  ⟨Relation.ReflTransGen.tail
      (Relation.ReflTransGen.single (Step.inc (mkChunk 3)))
      (Step.finish (mkChunk 3).IncReaderRefCount),
   by decide, by decide, by decide⟩

/-- Claim C2 (amended): `PruneSize` returns the fixed per-object overhead
plus the compressed snapshot size exactly when a nonempty compressed
snapshot exists, regardless of whether the decompressed region has been
released; otherwise the overhead plus the decompressed region's size. -/
theorem pruneSize_compressed_or_contents (c : SerializedLogChunk) :
    (c.compressed_log_.length ≠ 0 →
      c.PruneSize = sizeofChunk + c.compressed_log_.length) ∧
    (c.compressed_log_.length = 0 →
      c.PruneSize = sizeofChunk + c.contents_.length) := by
  constructor <;> intro h <;> simp [SerializedLogChunk.PruneSize, h]

/-- Witness for C2 (amended) at concrete chunks on both branches. -/
theorem pruneSize_compressed_or_contents_witness :
    (mkChunk 3).FinishWriting.PruneSize =
      sizeofChunk + (mkChunk 3).FinishWriting.compressed_log_.length ∧
    (mkChunk 3).PruneSize = sizeofChunk + (mkChunk 3).contents_.length :=
  ⟨(pruneSize_compressed_or_contents (mkChunk 3).FinishWriting).1 (by decide),
   (pruneSize_compressed_or_contents (mkChunk 3)).2 (by decide)⟩

/-- Claim C3 as stated is false on the code: in the reachable state where a
reader stays attached across `FinishWriting`, both byte regions are resident
but `PruneSize` counts only the compressed one, undercounting live bytes and
excluding the resident decompressed region's size. -/
theorem pruneSize_undercount_counterexample :
    Reachable 100 (mkChunk 100).IncReaderRefCount.FinishWriting ∧
    Resident ((mkChunk 100).IncReaderRefCount.FinishWriting) ∧
    ((mkChunk 100).IncReaderRefCount.FinishWriting).PruneSize <
      ((mkChunk 100).IncReaderRefCount.FinishWriting).contents_.length +
        ((mkChunk 100).IncReaderRefCount.FinishWriting).compressed_log_.length :=
  ⟨Relation.ReflTransGen.tail
      (Relation.ReflTransGen.single (Step.inc (mkChunk 100)))
      (Step.finish (mkChunk 100).IncReaderRefCount),
   by decide, by decide⟩

/-- Claim C3 (amended): `PruneSize` never undercounts the bytes resident in
the chunk's byte regions whenever at most one of the two regions (compressed
snapshot, decompressed region) is nonempty; in particular, with no
compressed snapshot the decompressed region's full size is included. -/
theorem pruneSize_no_undercount_single_region (c : SerializedLogChunk)
    (h : c.compressed_log_.length = 0 ∨ c.contents_.length = 0) :
    c.contents_.length + c.compressed_log_.length ≤ c.PruneSize := by
  rcases h with h | h
  · simp [SerializedLogChunk.PruneSize, h, sizeofChunk]
  · by_cases h2 : c.compressed_log_.length = 0 <;>
      simp [SerializedLogChunk.PruneSize, h, h2, sizeofChunk]

/-- Witness for C3 (amended): a fresh chunk (no snapshot) and a finalized
chunk (released region). -/
theorem pruneSize_no_undercount_witness :
    (mkChunk 3).contents_.length + (mkChunk 3).compressed_log_.length ≤
      (mkChunk 3).PruneSize ∧
    (mkChunk 3).FinishWriting.contents_.length +
        (mkChunk 3).FinishWriting.compressed_log_.length ≤
      (mkChunk 3).FinishWriting.PruneSize :=
  ⟨pruneSize_no_undercount_single_region (mkChunk 3) (Or.inl (by decide)),
   pruneSize_no_undercount_single_region (mkChunk 3).FinishWriting
     (Or.inr (by decide))⟩

/-- Claim C1 as stated is false at capacity zero: the constructor admits a
zero-size chunk whose writer is active while its decompressed region is
empty, so the residency invariant's forward direction fails already in the
initial state. -/
theorem residency_claim_counterexample :
    Reachable 0 (mkChunk 0) ∧ (mkChunk 0).writer_active_ = true ∧
      ¬ Resident (mkChunk 0) :=
  ⟨Relation.ReflTransGen.refl, rfl, by decide⟩

/-- Claim C1 (amended): for every chunk constructed with positive capacity,
in every state reachable by Log, FinishWriting, IncReaderRefCount and
DecReaderRefCount, the decompressed region is resident (non-empty and sized
at least the write cursor) if and only if the writer is active or the reader
count is positive. -/
theorem residency_iff_writer_or_reader (cap : Nat) (c : SerializedLogChunk)
    (hcap : 0 < cap) (hr : Reachable cap c) :
    Resident c ↔ (c.writer_active_ = true ∨ 0 < c.reader_ref_count_) := by
  have hinv := chunkInv_of_reachable cap c hr
  constructor
  · intro hres
    by_cases hwa : c.writer_active_ = true
    · exact Or.inl hwa
    · have hwa2 : c.writer_active_ = false := by
        cases h : c.writer_active_
        · rfl
        · exact absurd h hwa
      by_cases hrc : c.reader_ref_count_ = 0
      · exact absurd hres (not_resident_of_chunkInv cap c hinv hwa2 hrc)
      · exact Or.inr (Nat.pos_of_ne_zero hrc)
  · exact resident_of_chunkInv cap c hcap hinv

/-- Witness for C1 (amended) at a freshly constructed chunk of capacity 1. -/
theorem residency_iff_writer_or_reader_witness :
    Resident (mkChunk 1) ↔
      ((mkChunk 1).writer_active_ = true ∨ 0 < (mkChunk 1).reader_ref_count_) :=
  residency_iff_writer_or_reader 1 (mkChunk 1) (by decide)
    Relation.ReflTransGen.refl

/-- Claim C4: a first call to `FinishWriting` (writer still active) marks
the writer inactive, computes the compressed snapshot from the current
decompressed region, and empties the decompressed region precisely when the
reader count is zero, leaving it untouched otherwise. -/
theorem finishWriting_first_call (cap : Nat) (c : SerializedLogChunk)
    (hcap : 0 < cap) (hr : Reachable cap c)
    (hw : c.writer_active_ = true) :
    c.FinishWriting.writer_active_ = false ∧
    c.FinishWriting.compressed_log_ = rleCompress c.contents_ ∧
    (c.reader_ref_count_ = 0 → c.FinishWriting.contents_ = []) ∧
    (c.reader_ref_count_ ≠ 0 → c.FinishWriting.contents_ = c.contents_) ∧
    (c.FinishWriting.contents_ = [] ↔ c.reader_ref_count_ = 0) := by
  obtain ⟨hwo, hact, hinact⟩ := chunkInv_of_reachable cap c hr
  obtain ⟨hcomp, hlen⟩ := hact hw
  have hc0 : c.compressed_log_.length = 0 := by simp [hcomp]
  rw [FinishWriting_eq]
  refine ⟨rfl, by simp [hc0], fun h => by simp [h], fun h => by simp [h], ?_⟩
  constructor
  · intro h
    by_cases hr0 : c.reader_ref_count_ = 0
    · exact hr0
    · rw [if_neg hr0] at h
      rw [h] at hlen
      simp at hlen
      omega
  · intro h
    simp [h]

/-- Witness for C4 at a freshly constructed chunk of capacity 1. -/
theorem finishWriting_first_call_witness :
    (mkChunk 1).FinishWriting.writer_active_ = false ∧
    (mkChunk 1).FinishWriting.compressed_log_ =
      rleCompress (mkChunk 1).contents_ ∧
    ((mkChunk 1).reader_ref_count_ = 0 →
      (mkChunk 1).FinishWriting.contents_ = []) ∧
    ((mkChunk 1).reader_ref_count_ ≠ 0 →
      (mkChunk 1).FinishWriting.contents_ = (mkChunk 1).contents_) ∧
    ((mkChunk 1).FinishWriting.contents_ = [] ↔
      (mkChunk 1).reader_ref_count_ = 0) :=
  finishWriting_first_call 1 (mkChunk 1) (by decide)
    Relation.ReflTransGen.refl rfl

/-- Claim C6: `log_entry` with the writer inactive and no reader is the
fatal CHECK (modelled as `none`); under the precondition that the writer is
active or a reader is attached it returns the pointer into the resident
decompressed region at the given offset. -/
theorem log_entry_check_and_access (cap : Nat) (c : SerializedLogChunk)
    (offset : Nat) (hcap : 0 < cap) (hr : Reachable cap c) :
    ((c.writer_active_ = false ∧ c.reader_ref_count_ = 0) →
      c.log_entry offset = none) ∧
    ((c.writer_active_ = true ∨ 0 < c.reader_ref_count_) →
      c.log_entry offset = some (c.contents_.drop offset) ∧ Resident c) := by
  constructor
  · rintro ⟨hw, hrc⟩
    simp [SerializedLogChunk.log_entry, hw, hrc]
  · intro hpre
    refine ⟨?_, resident_of_chunkInv cap c hcap
      (chunkInv_of_reachable cap c hr) hpre⟩
    unfold SerializedLogChunk.log_entry
    rw [if_pos hpre]

/-- Witness for C6 at a freshly constructed chunk of capacity 1, offset 0. -/
theorem log_entry_check_and_access_witness :
    (((mkChunk 1).writer_active_ = false ∧
        (mkChunk 1).reader_ref_count_ = 0) →
      (mkChunk 1).log_entry 0 = none) ∧
    (((mkChunk 1).writer_active_ = true ∨ 0 < (mkChunk 1).reader_ref_count_) →
      (mkChunk 1).log_entry 0 = some ((mkChunk 1).contents_.drop 0) ∧
        Resident (mkChunk 1)) :=
  log_entry_check_and_access 1 (mkChunk 1) 0 (by decide)
    Relation.ReflTransGen.refl

/-- Claim C7: a chunk is constructed with the writer active, and once the
writer is inactive no sequence of public operations ever reactivates it. -/
theorem writer_active_one_way :
    (∀ cap : Nat, (mkChunk cap).writer_active_ = true) ∧
    (∀ c c2 : SerializedLogChunk, c.writer_active_ = false →
      Relation.ReflTransGen StepAll c c2 → c2.writer_active_ = false) := by
  refine ⟨fun _ => rfl, fun c c2 hw h => ?_⟩
  induction h with
  | refl => exact hw
  | tail _ st ih =>
    cases st with
    | base _ s =>
      cases s with
      | log sequence realtime uid pid tid msg hw2 hcl =>
        rw [ih] at hw2
        exact absurd hw2 (by simp)
      | finish => simp [FinishWriting_eq]
      | inc => rw [IncReaderRefCount_eq]; exact ih
      | dec hg => rw [DecReaderRefCount_eq]; exact ih
    | clear uid hrc => rw [ClearUidLogs_eq]; exact ih
    | compress =>
      unfold SerializedLogChunk.Compress
      split
      · exact ih
      · exact ih
    | attach r => exact ih
    | detach r => exact ih

/-- Witness for C7: a fresh chunk has the writer active, and after
`FinishWriting` a further step (a reader attach) leaves it inactive. -/
theorem writer_active_one_way_witness :
    (mkChunk 5).writer_active_ = true ∧
    (mkChunk 1).FinishWriting.IncReaderRefCount.writer_active_ = false :=
  ⟨writer_active_one_way.1 5,
   writer_active_one_way.2 (mkChunk 1).FinishWriting
     (mkChunk 1).FinishWriting.IncReaderRefCount (by decide)
     (Relation.ReflTransGen.single
       (StepAll.base _ _ (Step.inc (mkChunk 1).FinishWriting)))⟩

/-- Claim C9: with no readers attached, pruning by identity removes exactly
the entries with that identity, keeps all other entries in their original
relative order (the resulting region is the concatenated encoding of the
filtered entry list), and reports "now empty" precisely when no entries
remain. -/
theorem clearUidLogs_spec (c : SerializedLogChunk) (uid : Nat)
    (es : List SerializedLogEntry)
    (_hrc : c.reader_ref_count_ = 0)
    (henc : c.contents_.take c.write_offset_ = encodeAll es) :
    (c.ClearUidLogs uid).1.write_offset_ =
        (encodeAll (es.filter fun e => e.uid != uid)).length ∧
    (c.ClearUidLogs uid).1.contents_.take
        (c.ClearUidLogs uid).1.write_offset_ =
      encodeAll (es.filter fun e => e.uid != uid) ∧
    ((c.ClearUidLogs uid).2 = true ↔
      (es.filter fun e => e.uid != uid) = []) ∧
    (∀ e ∈ es.filter fun e => e.uid != uid, e.uid ≠ uid) := by
  have hkept : SerializedLogChunk.clearScan
      (c.contents_.take c.write_offset_) uid =
      encodeAll (es.filter fun e => e.uid != uid) := by
    rw [henc]
    exact clearScan_encodeAll uid es
  rw [ClearUidLogs_eq]
  refine ⟨by simp [hkept], ?_, ?_, ?_⟩
  · show (SerializedLogChunk.clearScan (c.contents_.take c.write_offset_) uid
        ++ _).take (SerializedLogChunk.clearScan
          (c.contents_.take c.write_offset_) uid).length = _
    rw [List.take_left, hkept]
  · show ((SerializedLogChunk.clearScan
        (c.contents_.take c.write_offset_) uid).length == 0) = true ↔ _
    rw [hkept]
    simp [List.length_eq_zero, encodeAll_eq_nil_iff]
  · intro e he
    have hm := List.mem_filter.1 he
    simpa using hm.2

/-- A concrete two-entry chunk used to witness the prune specification:
one entry owned by uid 1000, one by uid 42, writer still active, no
readers. -/
def pruneDemoEntries : List SerializedLogEntry :=
  [⟨1, 10, 1000, 5, 6, [7, 8]⟩, ⟨2, 11, 42, 5, 6, [9]⟩]

/-- The chunk holding `pruneDemoEntries` back-to-back. -/
def pruneDemoChunk : SerializedLogChunk :=
  ⟨encodeAll pruneDemoEntries, (encodeAll pruneDemoEntries).length,
   0, true, 2, [], []⟩

/-- Witness for C9: prune uid 1000 out of the concrete two-entry chunk. -/
theorem clearUidLogs_spec_witness :
    (pruneDemoChunk.ClearUidLogs 1000).1.write_offset_ =
        (encodeAll (pruneDemoEntries.filter fun e => e.uid != 1000)).length ∧
    (pruneDemoChunk.ClearUidLogs 1000).1.contents_.take
        (pruneDemoChunk.ClearUidLogs 1000).1.write_offset_ =
      encodeAll (pruneDemoEntries.filter fun e => e.uid != 1000) ∧
    ((pruneDemoChunk.ClearUidLogs 1000).2 = true ↔
      (pruneDemoEntries.filter fun e => e.uid != 1000) = []) ∧
    (∀ e ∈ pruneDemoEntries.filter fun e => e.uid != 1000, e.uid ≠ 1000) :=
  clearUidLogs_spec pruneDemoChunk 1000 pruneDemoEntries rfl (by decide)

/-- Claim C4 as stated is false at capacity zero: with a reader attached to
a zero-size chunk, `FinishWriting` leaves the decompressed region empty
(hence not resident) even though the reader count is nonzero. -/
theorem finishWriting_claim_counterexample :
    Reachable 0 (mkChunk 0).IncReaderRefCount ∧
    (mkChunk 0).IncReaderRefCount.writer_active_ = true ∧
    (mkChunk 0).IncReaderRefCount.reader_ref_count_ ≠ 0 ∧
    (mkChunk 0).IncReaderRefCount.FinishWriting.contents_ = [] ∧
    ¬ Resident (mkChunk 0).IncReaderRefCount.FinishWriting :=
  ⟨Relation.ReflTransGen.single (Step.inc (mkChunk 0)), rfl, by decide,
   by decide, by decide⟩

/-- Claim C6 as stated is false at capacity zero: on a fresh zero-size chunk
the writer is active, so `log_entry` takes its success branch and returns a
pointer, yet the decompressed region is empty and therefore not resident. -/
theorem log_entry_claim_counterexample :
    Reachable 0 (mkChunk 0) ∧
    ((mkChunk 0).writer_active_ = true ∨ 0 < (mkChunk 0).reader_ref_count_) ∧
    (mkChunk 0).log_entry 0 = some ((mkChunk 0).contents_.drop 0) ∧
    ¬ Resident (mkChunk 0) :=
  ⟨Relation.ReflTransGen.refl, Or.inl rfl, by decide, by decide⟩
